import Mathlib

/-!
Verification development for the REMP (reliable external-message delivery)
subsystem and the block-handle storage layer of the node.

The REMP implementation files (message cache, reliable message queue, session
manager) are not part of the source tree here; only their test suite is.  The
definitions below are therefore modelled from the specification, with the
arithmetic details (alive-range computation, garbage-collection stamping)
pinned down so that every assertion of the in-tree test suite
(`test_rmq_messages.rs`) is satisfied by the model.  The block-handle section
at the end is translated directly from `storage/src/block_handle_db.rs`.

Message ids, uids and block ids are modelled as natural numbers; the
lexicographic order on 256-bit hashes becomes the numeric order on `Nat`.
-/

/-- Modelled from the spec: pipeline levels of REMP statuses
(shard-queue / shard / master, `RempMessageLevel` in the missing source). -/
inductive RempMessageLevel where
  | Queue
  | Shardchain
  | Masterchain
deriving DecidableEq

/-- Modelled from the spec: the tagged message-status variant
(`RempMessageStatus` in the missing source): `New`, `Ignored(level, block)`,
`Duplicate(canonical_block, canonical_uid, canonical_id)`,
`Accepted(level, block, master_block)`, `Rejected(level)`. -/
inductive RempMessageStatus where
  | New
  | Ignored (level : RempMessageLevel) (block : Nat)
  | Duplicate (canonical_block : Nat) (canonical_uid : Nat) (canonical_id : Nat)
  | Accepted (level : RempMessageLevel) (block : Nat) (master_block : Nat)
  | Rejected (level : RempMessageLevel)
deriving DecidableEq

/-- Modelled from the spec: answer of `check_remp_duplicate`
(`RempDuplicateStatus` in the missing source). -/
inductive RempDuplicateStatus where
  | Absent
  | Fresh (uid : Nat)
  | Duplicate (canonical_block : Nat) (canonical_uid : Nat) (canonical_id : Nat)
deriving DecidableEq

/-- Whether a status is a decided `Accepted` status. -/
def is_accepted_status : RempMessageStatus → Bool
  | RempMessageStatus.Accepted _ _ _ => true
  | _ => false

/-- Block recorded in an `Accepted` status (default block otherwise). -/
def status_block : RempMessageStatus → Nat
  | RempMessageStatus.Accepted _ b _ => b
  | _ => 0

/-- Modelled from the spec: a message-cache entry (the missing source's cache
entry): uid, status, optional full message and origin (body may be dropped
independently of status: retention stage is `Full` iff the message body is
present, `HeaderOnly` otherwise), and the epoch at which it was last touched. -/
structure CacheEntry where
  uid : Nat
  status : RempMessageStatus
  message : Option Nat
  origin : Option Nat
  touchedCc : Nat
deriving DecidableEq

/-- Modelled from the spec: the message status cache, a mapping from message
id to cached entry (association list keyed by id). -/
abbrev MessageCache := List (Nat × CacheEntry)

/-- Point lookup of the entry for an id (first match in the association list). -/
def lookup_entry : MessageCache → Nat → Option CacheEntry
  | [], _ => none
  | (k, e) :: rest, i => if k = i then some e else lookup_entry rest i

/-- Modelled from the spec: `get_message_status(id)`: point lookup returning
`none` if the id was never seen or has been fully evicted. -/
def get_message_status (c : MessageCache) (i : Nat) : Option RempMessageStatus :=
  (lookup_entry c i).map (fun e => e.status)

/-- Whether the cached status of `i` is `Accepted`. -/
def is_accepted (c : MessageCache) (i : Nat) : Bool :=
  match get_message_status c i with
  | some st => is_accepted_status st
  | none => false

/-- Find a canonical record for uid `u`: an entry of another id (different
from `i`) sharing the uid whose status is decided (`Accepted`). Returns the
canonical id together with the block of its acceptance. -/
def find_canonical (c : MessageCache) (i : Nat) (u : Nat) : Option (Nat × CacheEntry) :=
  c.find? (fun q => decide (q.1 ≠ i) && (q.2.uid == u) && is_accepted_status q.2.status)

/-- Modelled from the spec: `check_remp_duplicate(id)`: `Absent` when the id
is unknown (never seen or fully evicted), `Fresh(uid)` when the id is known
and no conflicting canonical record exists for its uid, and
`Duplicate(canonical_block, canonical_uid, canonical_id)` when another id
sharing the uid is already decided as canonical. -/
def check_remp_duplicate (c : MessageCache) (i : Nat) : RempDuplicateStatus :=
  match lookup_entry c i with
  | none => RempDuplicateStatus.Absent
  | some e =>
    match find_canonical c i e.uid with
    | some q => RempDuplicateStatus.Duplicate (status_block q.2.status) e.uid q.1
    | none => RempDuplicateStatus.Fresh e.uid

/-- Modelled from the spec: `add_external_message_status(id, uid, message?,
origin?, new_status, merge_fn, epoch)`: inserts or updates the entry for the
id; an existing status is merged through the caller-supplied merge function;
the touched-epoch stamp is always refreshed, and supplying a body restores
the retention stage to `Full`. -/
def add_external_message_status (c : MessageCache) (i : Nat) (u : Nat)
    (msg : Option Nat) (org : Option Nat) (new_status : RempMessageStatus)
    (merge : RempMessageStatus → RempMessageStatus → RempMessageStatus)
    (cc : Nat) : MessageCache :=
  match lookup_entry c i with
  | none => (i, { uid := u, status := new_status, message := msg, origin := org, touchedCc := cc }) :: c
  | some _ =>
    c.map (fun q =>
      if q.1 = i then
        (q.1, { uid := q.2.uid, status := merge q.2.status new_status,
                message := if msg.isSome then msg else q.2.message,
                origin := if org.isSome then org else q.2.origin,
                touchedCc := cc })
      else q)

/-- Demotion of a cache entry to header-only retention: the body and origin
are dropped, id/uid/status are kept and the touched-epoch stamp is moved to
the boundary of the alive range so that an unchanged range does not collect
the entry again. -/
def demote (e : CacheEntry) (s : Nat) : CacheEntry :=
  { uid := e.uid, status := e.status, message := none, origin := none, touchedCc := s }

/-- Aggregate counts returned by a garbage-collection pass. -/
structure RempSessionStats where
  total : Nat
  has_only_header : Nat
deriving DecidableEq

/-- Modelled from the spec: `gc_old_messages(alive_range_start)`: one
retention-stage-advance pass over the cache.  An entry whose touched epoch
falls outside the alive range (strictly below its start) advances one step:
an entry still holding its body (`Full`) is demoted to header-only, an
entry without a body (`HeaderOnly`) is removed.  `total` counts the entries
fully evicted by the pass; `has_only_header` counts the entries that hold
only a header after being processed (newly demoted entries as well as
evicted header-only ones). -/
def gc_old_messages : MessageCache → Nat → MessageCache × RempSessionStats
  | [], _ => ([], { total := 0, has_only_header := 0 })
  | (i, e) :: rest, s =>
    if e.touchedCc < s then
      if e.message.isSome then
        ((i, demote e s) :: (gc_old_messages rest s).1,
         { total := (gc_old_messages rest s).2.total,
           has_only_header := (gc_old_messages rest s).2.has_only_header + 1 })
      else
        ((gc_old_messages rest s).1,
         { total := (gc_old_messages rest s).2.total + 1,
           has_only_header := (gc_old_messages rest s).2.has_only_header + 1 })
    else ((i, e) :: (gc_old_messages rest s).1, (gc_old_messages rest s).2)

/-- Modelled from the spec: one epoch session of the master-chain session
tracker: (sequence number, confirmation time).  Validator-set snapshots do
not influence any claimed property and are omitted. -/
structure McSession where
  seqno : Nat
  time : Nat
deriving DecidableEq

/-- Modelled from the spec: `create_master_cc_session(seqno, time)`: appends
a new session to the log (kept newest first).  Fails if `seqno` is not
`last_seqno + 1` and not already the last recorded seqno with an identical
time (idempotent replay); fails if `time` is less than the previous
session's time. -/
def create_master_cc_session (log : List McSession) (seqno time : Nat) :
    Except String (List McSession) :=
  match log with
  | [] => Except.ok [{ seqno := seqno, time := time }]
  | prev :: rest =>
    if seqno = prev.seqno && time = prev.time then Except.ok (prev :: rest)
    else if seqno = prev.seqno + 1 && prev.time ≤ time then
      Except.ok ({ seqno := seqno, time := time } :: prev :: rest)
    else Except.error "create_master_cc_session: inconsistent session advancement"

/-- Helper walking the session log (newest first) below the current session:
a session stays alive while the time of the session just above it is within
the guarantee window of the current time. -/
def alive_start_go (tn guarantee : Nat) : Nat → Nat → List McSession → Nat
  | bound, _, [] => bound
  | bound, nextTime, s :: rest =>
    if tn < nextTime + guarantee then alive_start_go tn guarantee s.seqno s.time rest
    else bound

/-- Modelled from the spec: start of the alive range: the contiguous suffix
of sessions still within the round-trip delivery guarantee of the newest
session's time.  The exact boundary arithmetic is fixed by the in-tree
test suite: a session below the top remains alive exactly while the
confirmation time of the session above it is newer than the guarantee
window. -/
def alive_start (log : List McSession) (guarantee : Nat) : Nat :=
  match log with
  | [] => 0
  | cur :: rest => alive_start_go cur.time guarantee cur.seqno cur.time rest

/-- State held by the REMP manager across epoch advances: the append-only
session log (newest first) and the shared message cache. -/
structure RempManagerState where
  sessions : List McSession
  cache : MessageCache
deriving DecidableEq

/-- Modelled from the spec: the round-advance driver step exercised by the
test bench: record the session for the new seqno, recompute the alive range
and run one garbage-collection pass over the cache with the new range
start.  Fails whenever session creation fails (seqno replayed with an
unequal time, non-monotonic seqno, or decreasing time). -/
def advance_master_cc (st : RempManagerState) (seqno time guarantee : Nat) :
    Except String (RempManagerState × RempSessionStats) :=
  match create_master_cc_session st.sessions seqno time with
  | Except.error e => Except.error e
  | Except.ok log =>
    let r := gc_old_messages st.cache (alive_start log guarantee)
    Except.ok ({ sessions := log, cache := r.1 }, r.2)

/-- Uid recorded in the cache for an id, if any. -/
def uid_of (c : MessageCache) (i : Nat) : Option Nat :=
  (lookup_entry c i).map (fun e => e.uid)

/-- Members of the pending set belonging to one uid group. -/
def group_of (c : MessageCache) (p : List Nat) (u : Nat) : List Nat :=
  p.filter (fun i => uid_of c i == some u)

/-- Canonical choice inside one uid group during a collation pass: if some
member is already decided (`Accepted`) nothing is forwarded; otherwise the
lexicographically smallest id of the group is selected. -/
def chosen_of (c : MessageCache) (g : List Nat) : Option Nat :=
  if g.any (fun i => is_accepted c i) then none else g.min?

/-- Uids represented in the pending set (deduplicated). -/
def collation_uids (c : MessageCache) (p : List Nat) : List Nat :=
  (p.filterMap (uid_of c)).dedup

/-- Ids forwarded to the collator intake by one collation pass: one chosen
id per undecided uid group. -/
def collation_forwards (c : MessageCache) (p : List Nat) : List Nat :=
  (collation_uids c p).filterMap (fun u => chosen_of c (group_of c p u))

/-- Pending ids rejected by one collation pass: every pending id that is
neither decided (`Accepted`) nor selected for forwarding. -/
def collation_rejects (c : MessageCache) (p : List Nat) : List Nat :=
  p.filter (fun i => !(is_accepted c i) && !((collation_forwards c p).contains i))

/-- Mark a list of ids `Rejected` at `Queue` level in the cache. -/
def apply_rejects (c : MessageCache) (l : List Nat) : MessageCache :=
  c.map (fun q =>
    if q.1 ∈ l then
      (q.1, { uid := q.2.uid, status := RempMessageStatus.Rejected RempMessageLevel.Queue,
              message := q.2.message, origin := q.2.origin, touchedCc := q.2.touchedCc })
    else q)

/-- Modelled from the spec: `collect_messages_for_collation()`: scans the
pending set grouped by uid; for each group either everything undecided is
rejected (when a member is already `Accepted`), or the lexicographically
smallest id is forwarded once to the collator intake and every other member
is rejected at `Queue` level and removed from the pending set.  Returns the
updated cache, the remaining pending set and the forwarded ids. -/
def collect_messages_for_collation (c : MessageCache) (p : List Nat) :
    MessageCache × List Nat × List Nat :=
  (apply_rejects c (collation_rejects c p),
   p.filter (fun i => !((collation_rejects c p).contains i)),
   collation_forwards c p)

/-- Modelled from the spec: the well-known terminal status assigned to a
record that is forwarded nowhere: `Ignored` at `Masterchain` level with the
default block id. -/
def forwarded_ignored_status : RempMessageStatus :=
  RempMessageStatus.Ignored RempMessageLevel.Masterchain 0

/-- Modelled from the spec: one pending record delivered by the agreement
layer: message id, uid, body, declared origin and the master-chain seqno the
record was produced for. -/
structure RempCatchainRecord where
  message_id : Nat
  message_uid : Nat
  message_body : Nat
  origin : Nat
  masterchain_seqno : Nat
deriving DecidableEq

/-- Modelled from the spec: `process_pending_remp_catchain_record(record)`
against a queue whose epoch is `cc`: a fresh record for a new id starts
`New` and joins the pending set unless its uid is already decided by another
canonical id (then it is recorded as `Duplicate`); a record replayed from an
older session ("forwarded") is never forwarded again: an unknown id is
recorded with `forwarded_ignored_status`, an id already `Accepted` becomes
`Ignored` at `Masterchain` level with its acceptance block. -/
def process_pending_remp_catchain_record (cc : Nat) (c : MessageCache) (p : List Nat)
    (r : RempCatchainRecord) : MessageCache × List Nat :=
  match lookup_entry c r.message_id with
  | some e =>
    if r.masterchain_seqno < cc then
      match e.status with
      | RempMessageStatus.Accepted _ blk _ =>
        (c.map (fun q =>
          if q.1 = r.message_id then
            (q.1, { uid := q.2.uid,
                    status := RempMessageStatus.Ignored RempMessageLevel.Masterchain blk,
                    message := q.2.message, origin := q.2.origin, touchedCc := q.2.touchedCc })
          else q), p)
      | _ => (c, p)
    else (c, p)
  | none =>
    if r.masterchain_seqno < cc then
      ((r.message_id,
        { uid := r.message_uid, status := forwarded_ignored_status,
          message := some r.message_body, origin := some r.origin, touchedCc := cc }) :: c,
       p)
    else
      match find_canonical c r.message_id r.message_uid with
      | some q =>
        ((r.message_id,
          { uid := r.message_uid,
            status := RempMessageStatus.Duplicate (status_block q.2.status) r.message_uid q.1,
            message := some r.message_body, origin := some r.origin, touchedCc := cc }) :: c,
         p)
      | none =>
        ((r.message_id,
          { uid := r.message_uid, status := RempMessageStatus.New,
            message := some r.message_body, origin := some r.origin, touchedCc := cc }) :: c,
         r.message_id :: p)

/-- Modelled from the spec: a message as the identity component sees it:
a destination and logical body (the semantically significant fields) plus a
framing component standing for the parts of the wire encoding that may vary
between re-encodings of the same user intent. -/
structure SrcMessage where
  dst : Nat
  body : Nat
  framing : Nat
deriving DecidableEq

/-- Modelled from the spec: the full wire encoding of a message, determined
by all of its fields. -/
def full_encoding (m : SrcMessage) : Nat :=
  Nat.pair m.dst (Nat.pair m.body m.framing)

/-- Modelled from the spec: the semantically significant content of a
message (destination and logical body only). -/
def semantic_content (m : SrcMessage) : Nat :=
  Nat.pair m.dst m.body

/-- Modelled from the spec: the transport id of a message, a hash of the
full wire encoding; the spec stipulates it is unique per encoding, so the
hash is modelled as the (injective) encoding itself. -/
def message_id (m : SrcMessage) : Nat :=
  full_encoding m

/-- Modelled from the spec: `get_message_uid`: the content-derived unique
identifier, a hash of the semantically significant fields only. -/
def get_message_uid (m : SrcMessage) : Nat :=
  semantic_content m

/-- Flag bit for block data presence (`FLAG_DATA`). -/
def FLAG_DATA : Nat := 0x00000001

/-- Flag bit for block proof presence (`FLAG_PROOF`). -/
def FLAG_PROOF : Nat := 0x00000002

/-- Flag bit for block proof link presence (`FLAG_PROOF_LINK`). -/
def FLAG_PROOF_LINK : Nat := 0x00000004

/-- Flag bit for state presence (`FLAG_STATE`). -/
def FLAG_STATE : Nat := 0x00000010

/-- Flag bit for persistent state presence (`FLAG_PERSISTENT_STATE`). -/
def FLAG_PERSISTENT_STATE : Nat := 0x00000020

/-- Flag bit for the first next-block link (`FLAG_NEXT_1`). -/
def FLAG_NEXT_1 : Nat := 0x00000040

/-- Flag bit for the second next-block link (`FLAG_NEXT_2`). -/
def FLAG_NEXT_2 : Nat := 0x00000080

/-- Flag bit for the first prev-block link (`FLAG_PREV_1`). -/
def FLAG_PREV_1 : Nat := 0x00000100

/-- Flag bit for the applied state (`FLAG_APPLIED`). -/
def FLAG_APPLIED : Nat := 0x00000400

/-- Flag bit for the second prev-block link (`FLAG_PREV_2`). -/
def FLAG_PREV_2 : Nat := 0x00000200

/-- Flag bit for archive residency (`FLAG_MOVED_TO_ARCHIVE`). -/
def FLAG_MOVED_TO_ARCHIVE : Nat := 0x00002000

/-- Flag bit for saved-state presence (`FLAG_STATE_SAVED`). -/
def FLAG_STATE_SAVED : Nat := 0x00010000

/-- State of a block handle's meta information: the 32-bit flag word and the
masterchain reference sequence number, both held in the handle's `BlockMeta`. -/
structure BlockMetaState where
  flags : Nat
  mc_ref_seq_no : Nat
deriving DecidableEq

/-- Modelled from the spec: `BlockMeta::set_flags` (the `BlockMeta` type lives
outside this source tree): an atomic fetch-or returning the prior flag word. -/
def meta_set_flags (s : BlockMetaState) (flag : Nat) : Nat × BlockMetaState :=
  (s.flags, { s with flags := s.flags ||| flag })

/-- Modelled from the spec: `BlockMeta::set_masterchain_ref_seq_no` (outside
this source tree): a compare-and-swap storing the value only when the stored
one is still zero, returning the prior stored value. -/
def meta_set_mc_ref_seq_no (s : BlockMetaState) (v : Nat) : Nat × BlockMetaState :=
  if s.mc_ref_seq_no = 0 then (0, { s with mc_ref_seq_no := v }) else (s.mc_ref_seq_no, s)

/-- `BlockHandle::is_flag_set`: `(self.meta.flags() & flag) == flag`. -/
def is_flag_set (s : BlockMetaState) (flag : Nat) : Bool :=
  (s.flags &&& flag) == flag

/-- `BlockHandle::set_flag`: `(self.meta.set_flags(flag) & flag) != flag`,
paired with the flag word after the fetch-or. -/
def set_flag (s : BlockMetaState) (flag : Nat) : Bool × BlockMetaState :=
  let r := meta_set_flags s flag
  (!((r.1 &&& flag) == flag), r.2)

/-- `BlockHandle::set_data`. -/
def set_data (s : BlockMetaState) : Bool × BlockMetaState := set_flag s FLAG_DATA

/-- `BlockHandle::set_proof`. -/
def set_proof (s : BlockMetaState) : Bool × BlockMetaState := set_flag s FLAG_PROOF

/-- `BlockHandle::set_proof_link`. -/
def set_proof_link (s : BlockMetaState) : Bool × BlockMetaState := set_flag s FLAG_PROOF_LINK

/-- `BlockHandle::set_state`. -/
def set_state (s : BlockMetaState) : Bool × BlockMetaState := set_flag s FLAG_STATE

/-- `BlockHandle::set_state_saved`. -/
def set_state_saved (s : BlockMetaState) : Bool × BlockMetaState := set_flag s FLAG_STATE_SAVED

/-- `BlockHandle::set_persistent_state`. -/
def set_persistent_state (s : BlockMetaState) : Bool × BlockMetaState :=
  set_flag s FLAG_PERSISTENT_STATE

/-- `BlockHandle::set_next1`. -/
def set_next1 (s : BlockMetaState) : Bool × BlockMetaState := set_flag s FLAG_NEXT_1

/-- `BlockHandle::set_next2`. -/
def set_next2 (s : BlockMetaState) : Bool × BlockMetaState := set_flag s FLAG_NEXT_2

/-- `BlockHandle::set_prev1`. -/
def set_prev1 (s : BlockMetaState) : Bool × BlockMetaState := set_flag s FLAG_PREV_1

/-- `BlockHandle::set_prev2`. -/
def set_prev2 (s : BlockMetaState) : Bool × BlockMetaState := set_flag s FLAG_PREV_2

/-- `BlockHandle::set_block_applied`. -/
def set_block_applied (s : BlockMetaState) : Bool × BlockMetaState := set_flag s FLAG_APPLIED

/-- `BlockHandle::set_archived`. -/
def set_archived (s : BlockMetaState) : Bool × BlockMetaState := set_flag s FLAG_MOVED_TO_ARCHIVE

/-- `BlockHandle::has_data`. -/
def has_data (s : BlockMetaState) : Bool := is_flag_set s FLAG_DATA

/-- `BlockHandle::has_proof`. -/
def has_proof (s : BlockMetaState) : Bool := is_flag_set s FLAG_PROOF

/-- `BlockHandle::has_proof_link`. -/
def has_proof_link (s : BlockMetaState) : Bool := is_flag_set s FLAG_PROOF_LINK

/-- `BlockHandle::has_state`. -/
def has_state (s : BlockMetaState) : Bool := is_flag_set s FLAG_STATE

/-- `BlockHandle::has_saved_state`. -/
def has_saved_state (s : BlockMetaState) : Bool := is_flag_set s FLAG_STATE_SAVED

/-- `BlockHandle::has_persistent_state`. -/
def has_persistent_state (s : BlockMetaState) : Bool := is_flag_set s FLAG_PERSISTENT_STATE

/-- `BlockHandle::has_next1`. -/
def has_next1 (s : BlockMetaState) : Bool := is_flag_set s FLAG_NEXT_1

/-- `BlockHandle::has_next2`. -/
def has_next2 (s : BlockMetaState) : Bool := is_flag_set s FLAG_NEXT_2

/-- `BlockHandle::has_prev1`. -/
def has_prev1 (s : BlockMetaState) : Bool := is_flag_set s FLAG_PREV_1

/-- `BlockHandle::has_prev2`. -/
def has_prev2 (s : BlockMetaState) : Bool := is_flag_set s FLAG_PREV_2

/-- `BlockHandle::is_applied`. -/
def is_applied (s : BlockMetaState) : Bool := is_flag_set s FLAG_APPLIED

/-- `BlockHandle::is_archived`. -/
def is_archived (s : BlockMetaState) : Bool := is_flag_set s FLAG_MOVED_TO_ARCHIVE

/-- `BlockHandle::set_masterchain_ref_seq_no`: lets the meta perform its
compare-and-swap, then returns `Ok(true)` when the prior value was zero,
`Ok(false)` when the prior value already equals the argument, and an error
otherwise. -/
def set_masterchain_ref_seq_no (s : BlockMetaState) (v : Nat) :
    Except String (Bool × BlockMetaState) :=
  let r := meta_set_mc_ref_seq_no s v
  if r.1 = 0 then Except.ok (true, r.2)
  else if r.1 = v then Except.ok (false, r.2)
  else Except.error "INTERNAL ERROR: set different masterchain ref seqno for block"

/-- A pair found by `lookup_entry` is a member of the cache list. -/
theorem lookup_entry_mem {c : MessageCache} {i : Nat} {e : CacheEntry}
    (h : lookup_entry c i = some e) : (i, e) ∈ c := by
  induction c with
  | nil => simp [lookup_entry] at h
  | cons q rest ih =>
    obtain ⟨k, f⟩ := q
    by_cases hk : k = i
    · subst hk
      simp [lookup_entry] at h
      subst h
      exact List.mem_cons_self _ _
    · simp [lookup_entry, hk] at h
      exact List.mem_cons_of_mem _ (ih h)

/-- When the cache's keys are distinct, membership determines lookup. -/
theorem mem_lookup_entry {c : MessageCache} (hk : (c.map Prod.fst).Nodup)
    {i : Nat} {e : CacheEntry} (h : (i, e) ∈ c) : lookup_entry c i = some e := by
  induction c with
  | nil => simp at h
  | cons q rest ih =>
    obtain ⟨k, f⟩ := q
    simp only [List.map_cons, List.nodup_cons] at hk
    rcases List.mem_cons.mp h with h | h
    · obtain ⟨h1, h2⟩ := Prod.mk.injEq .. ▸ h
      subst h1; subst h2
      simp [lookup_entry]
    · have hne : k ≠ i := by
        intro hkeq
        subst hkeq
        exact hk.1 (List.mem_map_of_mem Prod.fst h)
      simp only [lookup_entry, if_neg hne]
      exact ih hk.2 h

/-- Ids absent from the key list are not found. -/
theorem lookup_entry_eq_none {c : MessageCache} {i : Nat}
    (h : i ∉ c.map Prod.fst) : lookup_entry c i = none := by
  induction c with
  | nil => rfl
  | cons q rest ih =>
    obtain ⟨k, f⟩ := q
    simp only [List.map_cons, List.mem_cons] at h
    push_neg at h
    have hne : k ≠ i := fun hkeq => h.1 hkeq.symm
    simp only [lookup_entry, if_neg hne]
    exact ih h.2

/-- Every entry surviving a GC pass carries a touched epoch at or above the
range start used by the pass. -/
theorem gc_touched_ge (c : MessageCache) (s : Nat) :
    ∀ q ∈ (gc_old_messages c s).1, s ≤ q.2.touchedCc := by
  induction c with
  | nil => intro q hq; simp [gc_old_messages] at hq
  | cons hd rest ih =>
    obtain ⟨i, e⟩ := hd
    intro q hq
    by_cases h1 : e.touchedCc < s
    · by_cases h2 : e.message.isSome
      · simp only [gc_old_messages, if_pos h1, if_pos h2] at hq
        rcases List.mem_cons.mp hq with h | h
        · subst h; simp [demote]
        · exact ih q h
      · simp only [gc_old_messages, if_pos h1, if_neg h2] at hq
        exact ih q hq
    · simp only [gc_old_messages, if_neg h1] at hq
      rcases List.mem_cons.mp hq with h | h
      · subst h; exact Nat.le_of_not_lt h1
      · exact ih q h

/-- A GC pass over a cache in which every entry is already inside the range
is a no-op reporting zero evictions and zero demotions. -/
theorem gc_of_ge {c : MessageCache} {s : Nat}
    (h : ∀ q ∈ c, s ≤ q.2.touchedCc) :
    gc_old_messages c s = (c, { total := 0, has_only_header := 0 }) := by
  induction c with
  | nil => rfl
  | cons hd rest ih =>
    obtain ⟨i, e⟩ := hd
    have he : ¬ e.touchedCc < s :=
      Nat.not_lt.mpr (h (i, e) (List.mem_cons_self _ _))
    have hrest := ih (fun q hq => h q (List.mem_cons_of_mem _ hq))
    simp [gc_old_messages, he, hrest]

/-- The key list shrinks (as a sublist) under a GC pass. -/
theorem gc_keys_sublist (c : MessageCache) (s : Nat) :
    List.Sublist ((gc_old_messages c s).1.map Prod.fst) (c.map Prod.fst) := by
  induction c with
  | nil => simp [gc_old_messages]
  | cons hd rest ih =>
    obtain ⟨i, e⟩ := hd
    by_cases h1 : e.touchedCc < s
    · by_cases h2 : e.message.isSome
      · simp only [gc_old_messages, if_pos h1, if_pos h2, List.map_cons]
        exact List.Sublist.cons₂ i ih
      · simp only [gc_old_messages, if_pos h1, if_neg h2, List.map_cons]
        exact List.Sublist.cons i ih
    · simp only [gc_old_messages, if_neg h1, List.map_cons]
      exact List.Sublist.cons₂ i ih

/-- Every pair surviving a GC pass descends from a source pair with the same
key: either the source entry was inside the range and is kept unchanged, or
it held a body, was outside the range, and was demoted. -/
theorem gc_mem_src {c : MessageCache} {s : Nat} {q : Nat × CacheEntry}
    (hq : q ∈ (gc_old_messages c s).1) :
    ∃ e0, (q.1, e0) ∈ c ∧
      ((q.2 = e0 ∧ s ≤ e0.touchedCc) ∨
       (q.2 = demote e0 s ∧ e0.touchedCc < s ∧ e0.message.isSome = true)) := by
  induction c with
  | nil => simp [gc_old_messages] at hq
  | cons hd rest ih =>
    obtain ⟨i, e⟩ := hd
    by_cases h1 : e.touchedCc < s
    · by_cases h2 : e.message.isSome
      · simp only [gc_old_messages, if_pos h1, if_pos h2] at hq
        rcases List.mem_cons.mp hq with h | h
        · subst h
          exact ⟨e, List.mem_cons_self _ _, Or.inr ⟨rfl, h1, h2⟩⟩
        · obtain ⟨e0, he0, hcase⟩ := ih h
          exact ⟨e0, List.mem_cons_of_mem _ he0, hcase⟩
      · simp only [gc_old_messages, if_pos h1, if_neg h2] at hq
        obtain ⟨e0, he0, hcase⟩ := ih hq
        exact ⟨e0, List.mem_cons_of_mem _ he0, hcase⟩
    · simp only [gc_old_messages, if_neg h1] at hq
      rcases List.mem_cons.mp hq with h | h
      · subst h
        exact ⟨e, List.mem_cons_self _ _, Or.inl ⟨rfl, Nat.le_of_not_lt h1⟩⟩
      · obtain ⟨e0, he0, hcase⟩ := ih h
        exact ⟨e0, List.mem_cons_of_mem _ he0, hcase⟩

/-- Entries inside the range survive a GC pass untouched. -/
theorem gc_mem_of_ge {c : MessageCache} {s : Nat} {q : Nat × CacheEntry}
    (hq : q ∈ c) (hge : s ≤ q.2.touchedCc) : q ∈ (gc_old_messages c s).1 := by
  induction c with
  | nil => simp at hq
  | cons hd rest ih =>
    obtain ⟨i, e⟩ := hd
    by_cases h1 : e.touchedCc < s
    · have hqrest : q ∈ rest := by
        rcases List.mem_cons.mp hq with h | h
        · subst h; exact absurd h1 (Nat.not_lt.mpr hge)
        · exact h
      by_cases h2 : e.message.isSome
      · simp only [gc_old_messages, if_pos h1, if_pos h2]
        exact List.mem_cons_of_mem _ (ih hqrest)
      · simp only [gc_old_messages, if_pos h1, if_neg h2]
        exact ih hqrest
    · simp only [gc_old_messages, if_neg h1]
      rcases List.mem_cons.mp hq with h | h
      · subst h; exact List.mem_cons_self _ _
      · exact List.mem_cons_of_mem _ (ih h)

/-- On a key-distinct cache, a GC pass acts pointwise on lookups: an entry
inside the range is kept, an out-of-range entry with a body is demoted, an
out-of-range entry without a body disappears. -/
theorem gc_lookup {c : MessageCache} (hk : (c.map Prod.fst).Nodup) (s : Nat) (i : Nat) :
    lookup_entry (gc_old_messages c s).1 i =
      match lookup_entry c i with
      | none => none
      | some e =>
        if e.touchedCc < s then
          (if e.message.isSome then some (demote e s) else none)
        else some e := by
  induction c with
  | nil => simp [gc_old_messages, lookup_entry]
  | cons hd rest ih =>
    obtain ⟨k, e⟩ := hd
    simp only [List.map_cons, List.nodup_cons] at hk
    by_cases hki : k = i
    · subst hki
      have hnone : lookup_entry (gc_old_messages rest s).1 k = none := by
        apply lookup_entry_eq_none
        intro hmem
        exact hk.1 ((gc_keys_sublist rest s).mem hmem)
      by_cases h1 : e.touchedCc < s
      · by_cases h2 : e.message.isSome
        · simp [gc_old_messages, if_pos h1, if_pos h2, lookup_entry, h1, h2]
        · simp [gc_old_messages, if_pos h1, if_neg h2, lookup_entry, h1, h2, hnone]
      · simp [gc_old_messages, if_neg h1, lookup_entry, h1]
    · have hrest := ih hk.2
      by_cases h1 : e.touchedCc < s
      · by_cases h2 : e.message.isSome
        · simp only [gc_old_messages, if_pos h1, if_pos h2, lookup_entry, if_neg hki]
          exact hrest
        · simp only [gc_old_messages, if_pos h1, if_neg h2, lookup_entry, if_neg hki]
          exact hrest
      · simp only [gc_old_messages, if_neg h1, lookup_entry, if_neg hki]
        exact hrest

/-- C5: `gc_old_messages` is idempotent with respect to an unchanged alive
range: a second pass with the same alive-range start changes nothing and
returns `SessionStats` with `total = 0` and `has_only_header = 0`. -/
theorem gc_old_messages_idempotent (c : MessageCache) (s : Nat) :
    gc_old_messages (gc_old_messages c s).1 s =
      ((gc_old_messages c s).1, { total := 0, has_only_header := 0 }) :=
  gc_of_ge (gc_touched_ge c s)

/-- C3 (amended): each GC pass advances an out-of-range entry by exactly one
retention step, where the retention stage is body presence: an entry holding
its body is demoted to header-only (body and origin dropped, id/uid/status
kept) and only evicted by a later pass whose range start has advanced
further, while an entry already holding only a header is removed by the
first pass that finds it outside the range. -/
theorem gc_two_stage_retention (c : MessageCache) (hk : (c.map Prod.fst).Nodup)
    (i : Nat) (e : CacheEntry) (hi : lookup_entry c i = some e)
    (s1 s2 : Nat) (h1 : e.touchedCc < s1) (h2 : s1 < s2) :
    (e.message.isSome = true →
      lookup_entry (gc_old_messages c s1).1 i = some (demote e s1)
      ∧ (demote e s1).uid = e.uid
      ∧ (demote e s1).status = e.status
      ∧ (demote e s1).message = none
      ∧ (demote e s1).origin = none
      ∧ lookup_entry (gc_old_messages (gc_old_messages c s1).1 s2).1 i = none)
    ∧ (e.message = none →
      lookup_entry (gc_old_messages c s1).1 i = none) := by
  have hl1 := gc_lookup hk s1 i
  rw [hi] at hl1
  constructor
  · intro hb
    have hlook1 : lookup_entry (gc_old_messages c s1).1 i = some (demote e s1) := by
      rw [hl1]; simp [h1, hb]
    refine ⟨hlook1, rfl, rfl, rfl, rfl, ?_⟩
    have hk1 : ((gc_old_messages c s1).1.map Prod.fst).Nodup :=
      hk.sublist (gc_keys_sublist c s1)
    have hl2 := gc_lookup hk1 s2 i
    rw [hlook1] at hl2
    rw [hl2]
    simp [demote, h2]
  · intro hb
    rw [hl1]
    simp [h1, hb]

/-- Concrete entry used to refute the literal reading of the GC claim. -/
def gcCounterexampleEntry : CacheEntry :=
  { uid := 3, status := RempMessageStatus.Accepted RempMessageLevel.Masterchain 7 0,
    message := none, origin := none, touchedCc := 1 }

/-- Concrete one-entry cache used to refute the literal reading of the GC
claim. -/
def gcCounterexampleCache : MessageCache := [(5, gcCounterexampleEntry)]

/-- C3 (counterexample): an entry recorded without a body (as the block
indexing path records accepted messages) is fully evicted by the very first
GC pass that finds its touched epoch outside the alive range, contradicting
the claim that full eviction happens only on the second such pass. -/
theorem gc_first_pass_eviction_counterexample :
    gcCounterexampleEntry.touchedCc < 2
    ∧ lookup_entry gcCounterexampleCache 5 = some gcCounterexampleEntry
    ∧ lookup_entry (gc_old_messages gcCounterexampleCache 2).1 5 = none
    ∧ (gc_old_messages gcCounterexampleCache 2).2.total = 1 := by
  decide

/-- Concrete full entry (body present) used for the amended GC witness. -/
def gcWitnessEntry : CacheEntry :=
  { uid := 9, status := RempMessageStatus.New, message := some 11, origin := some 12,
    touchedCc := 1 }

/-- Concrete one-entry cache used for the amended GC witness. -/
def gcWitnessCache : MessageCache := [(4, gcWitnessEntry)]

/-- Witness for the amended GC claim at a concrete cache holding one entry
with a body: the first out-of-range pass demotes it, the second evicts it. -/
theorem gc_two_stage_retention_witness :
    lookup_entry (gc_old_messages gcWitnessCache 2).1 4 = some (demote gcWitnessEntry 2)
    ∧ lookup_entry (gc_old_messages (gc_old_messages gcWitnessCache 2).1 3).1 4 = none := by
  have h := gc_two_stage_retention gcWitnessCache (by decide) 4 gcWitnessEntry
    (by decide) 2 3 (by decide) (by decide)
  obtain ⟨hfull, -⟩ := h
  obtain ⟨ha, -, -, -, -, hb⟩ := hfull rfl
  exact ⟨ha, hb⟩

/-- Well-formedness of the session log (newest first): strictly decreasing
sequence numbers and non-increasing confirmation times. -/
def sessions_wf : List McSession → Bool
  | [] => true
  | [_] => true
  | a :: b :: rest =>
    (decide (b.seqno < a.seqno) && decide (b.time ≤ a.time)) && sessions_wf (b :: rest)

/-- In a well-formed log every session below the newest one has a strictly
smaller sequence number. -/
theorem sessions_wf_lt {h : McSession} {rest : List McSession}
    (hwf : sessions_wf (h :: rest) = true) : ∀ x ∈ rest, x.seqno < h.seqno := by
  induction rest generalizing h with
  | nil => intro x hx; simp at hx
  | cons b rs ih =>
    intro x hx
    have hwf2 : ((decide (b.seqno < h.seqno) && decide (b.time ≤ h.time))
        && sessions_wf (b :: rs)) = true := hwf
    simp only [Bool.and_eq_true, decide_eq_true_eq] at hwf2
    rcases List.mem_cons.mp hx with h1 | h1
    · subst h1; exact hwf2.1.1
    · exact Nat.lt_trans (ih hwf2.2 x h1) hwf2.1.1

/-- A successful session creation yields a log headed by the requested
session. -/
theorem create_head {log log2 : List McSession} {seqno time : Nat}
    (h : create_master_cc_session log seqno time = Except.ok log2) :
    ∃ rest, log2 = { seqno := seqno, time := time } :: rest := by
  cases log with
  | nil =>
    simp only [create_master_cc_session, Except.ok.injEq] at h
    exact ⟨[], h.symm⟩
  | cons prev rest =>
    simp only [create_master_cc_session] at h
    by_cases hc1 : seqno = prev.seqno ∧ time = prev.time
    · have hprev : prev = { seqno := seqno, time := time } := by
        cases prev
        simp_all
      rw [if_pos (by simp [hc1.1, hc1.2])] at h
      obtain h2 := Except.ok.injEq .. ▸ h
      exact ⟨rest, by rw [← h2, hprev]⟩
    · rw [if_neg (by simpa using fun a b => hc1 ⟨a, b⟩)] at h
      by_cases hc2 : seqno = prev.seqno + 1 ∧ prev.time ≤ time
      · rw [if_pos (by simp [hc2.1, hc2.2])] at h
        obtain h2 := Except.ok.injEq .. ▸ h
        exact ⟨prev :: rest, h2.symm⟩
      · rw [if_neg (by simpa using fun a b => hc2 ⟨a, b⟩)] at h
        exact absurd h (by simp)

/-- C4: advancing with a previously-used seqno and an unequal time fails
(whether larger or smaller); replaying an advance with the same seqno and
the same recorded time succeeds and its GC pass reports zero evicted and
zero newly header-only entries; session creation fails when the supplied
time is below the previous session's time. -/
theorem advance_master_cc_replay_and_time
    (st : RempManagerState) (seqno time guarantee : Nat) :
    (sessions_wf st.sessions = true →
      (∃ x, x ∈ st.sessions ∧ x.seqno = seqno) →
      (∀ x, x ∈ st.sessions → x.seqno = seqno → x.time ≠ time) →
      (advance_master_cc st seqno time guarantee).toOption = none)
    ∧ (∀ st2 stats, advance_master_cc st seqno time guarantee = Except.ok (st2, stats) →
        advance_master_cc st2 seqno time guarantee =
          Except.ok (st2, { total := 0, has_only_header := 0 }))
    ∧ (∀ prev rest time2, st.sessions = prev :: rest → time2 < prev.time →
        (create_master_cc_session st.sessions (prev.seqno + 1) time2).toOption = none) := by
  refine ⟨?_, ?_, ?_⟩
  · intro hwf hex hall
    obtain ⟨x, hx, hxs⟩ := hex
    cases hlog : st.sessions with
    | nil => rw [hlog] at hx; simp at hx
    | cons prev rest =>
      rw [hlog] at hx hall hwf
      have herr : create_master_cc_session (prev :: rest) seqno time =
          Except.error "create_master_cc_session: inconsistent session advancement" := by
        simp only [create_master_cc_session]
        by_cases hsp : seqno = prev.seqno
        · have htne2 : ¬ (time = prev.time) :=
            fun h => hall prev (List.mem_cons_self _ _) hsp.symm h.symm
          have hne2 : ¬ (seqno = prev.seqno + 1) := by omega
          simp [hsp, htne2, hne2]
        · have hlt : seqno < prev.seqno := by
            rcases List.mem_cons.mp hx with h | h
            · exact absurd (h ▸ hxs).symm hsp
            · exact hxs ▸ sessions_wf_lt hwf x h
          have hne2 : ¬ (seqno = prev.seqno + 1) := by omega
          simp [hsp, hne2]
      rw [advance_master_cc.eq_def, hlog, herr]
      rfl
  · intro st2 stats hok
    simp only [advance_master_cc] at hok
    cases hc : create_master_cc_session st.sessions seqno time with
    | error e => rw [hc] at hok; simp at hok
    | ok log =>
      rw [hc] at hok
      simp only [Except.ok.injEq, Prod.mk.injEq] at hok
      obtain ⟨hst2, -⟩ := hok
      obtain ⟨rest, hlog⟩ := create_head hc
      have hreplay : create_master_cc_session log seqno time = Except.ok log := by
        rw [hlog]
        simp [create_master_cc_session]
      have hsess : st2.sessions = log := by rw [← hst2]
      have hcache : st2.cache = (gc_old_messages st.cache
          (alive_start log guarantee)).1 := by rw [← hst2]
      simp only [advance_master_cc, hsess, hreplay]
      rw [hcache, gc_of_ge (gc_touched_ge st.cache (alive_start log guarantee))]
      rw [← hcache, ← hsess]
  · intro prev rest time2 hlog hlt
    rw [hlog]
    simp only [create_master_cc_session]
    have hne1 : ¬ (prev.seqno + 1 = prev.seqno) := by omega
    have hle : ¬ (prev.time ≤ time2) := by omega
    simp [hne1, hle]
    rfl

/-- Concrete manager state for the session-advance witness. -/
def advWitnessState : RempManagerState :=
  { sessions := [{ seqno := 2, time := 30 }, { seqno := 1, time := 0 }], cache := [] }

/-- Concrete manager state after advancing the witness state to seqno 3. -/
def advWitnessState2 : RempManagerState :=
  { sessions := [{ seqno := 3, time := 40 }, { seqno := 2, time := 30 },
                 { seqno := 1, time := 0 }], cache := [] }

/-- Witness for the session-advance claim: replaying seqno 2 with a changed
time fails, replaying an advance of seqno 3 with the recorded time is a
stats-free no-op, and creating a session with a decreased time fails. -/
theorem advance_master_cc_replay_and_time_witness :
    (advance_master_cc advWitnessState 2 31 10).toOption = none
    ∧ advance_master_cc advWitnessState2 3 40 10 =
        Except.ok (advWitnessState2, { total := 0, has_only_header := 0 })
    ∧ (create_master_cc_session advWitnessState.sessions 3 29).toOption = none := by
  refine ⟨?_, ?_, ?_⟩
  · exact (advance_master_cc_replay_and_time advWitnessState 2 31 10).1 (by decide)
      ⟨{ seqno := 2, time := 30 }, by decide⟩ (by decide)
  · exact (advance_master_cc_replay_and_time advWitnessState 3 40 10).2.1
      advWitnessState2 { total := 0, has_only_header := 0 } rfl
  · exact (advance_master_cc_replay_and_time advWitnessState 3 29 10).2.2
      { seqno := 2, time := 30 } [{ seqno := 1, time := 0 }] 29 rfl (by decide)

/-- Setting a flag bit by or-ing leaves that flag bit fully set. -/
theorem lor_land_self (a f : Nat) : (a ||| f) &&& f = f := by
  apply Nat.eq_of_testBit_eq
  intro i
  rw [Nat.testBit_and, Nat.testBit_or]
  cases h : f.testBit i <;> simp [h]

/-- Or-ing the same flag twice equals or-ing it once. -/
theorem lor_lor_self (a f : Nat) : (a ||| f) ||| f = a ||| f := by
  apply Nat.eq_of_testBit_eq
  intro i
  rw [Nat.testBit_or, Nat.testBit_or]
  cases h : f.testBit i <;> simp [h]

/-- Generic behaviour of `BlockHandle::set_flag`: the returned boolean is
the negation of the prior query, the flag reads as set afterwards, and a
repeated call is an idempotent no-op returning `false`. -/
theorem set_flag_spec (s : BlockMetaState) (f : Nat) :
    (set_flag s f).1 = !(is_flag_set s f)
    ∧ is_flag_set (set_flag s f).2 f = true
    ∧ (set_flag (set_flag s f).2 f).1 = false
    ∧ (set_flag (set_flag s f).2 f).2 = (set_flag s f).2 := by
  refine ⟨rfl, ?_, ?_, ?_⟩
  · simp [set_flag, meta_set_flags, is_flag_set, lor_land_self]
  · simp [set_flag, meta_set_flags, lor_land_self]
  · simp [set_flag, meta_set_flags, lor_lor_self]

/-- C9: every boolean flag setter of `BlockHandle` returns `true` exactly
when the flag was not fully set before the call; after any call the
corresponding query returns `true`, and a repeated call is an idempotent
no-op returning `false`. -/
theorem block_handle_flag_setters (s : BlockMetaState) :
    ((set_data s).1 = !(has_data s) ∧ has_data (set_data s).2 = true
      ∧ (set_data (set_data s).2).1 = false ∧ (set_data (set_data s).2).2 = (set_data s).2)
    ∧ ((set_proof s).1 = !(has_proof s) ∧ has_proof (set_proof s).2 = true
      ∧ (set_proof (set_proof s).2).1 = false ∧ (set_proof (set_proof s).2).2 = (set_proof s).2)
    ∧ ((set_proof_link s).1 = !(has_proof_link s) ∧ has_proof_link (set_proof_link s).2 = true
      ∧ (set_proof_link (set_proof_link s).2).1 = false
      ∧ (set_proof_link (set_proof_link s).2).2 = (set_proof_link s).2)
    ∧ ((set_state s).1 = !(has_state s) ∧ has_state (set_state s).2 = true
      ∧ (set_state (set_state s).2).1 = false ∧ (set_state (set_state s).2).2 = (set_state s).2)
    ∧ ((set_state_saved s).1 = !(has_saved_state s)
      ∧ has_saved_state (set_state_saved s).2 = true
      ∧ (set_state_saved (set_state_saved s).2).1 = false
      ∧ (set_state_saved (set_state_saved s).2).2 = (set_state_saved s).2)
    ∧ ((set_persistent_state s).1 = !(has_persistent_state s)
      ∧ has_persistent_state (set_persistent_state s).2 = true
      ∧ (set_persistent_state (set_persistent_state s).2).1 = false
      ∧ (set_persistent_state (set_persistent_state s).2).2 = (set_persistent_state s).2)
    ∧ ((set_next1 s).1 = !(has_next1 s) ∧ has_next1 (set_next1 s).2 = true
      ∧ (set_next1 (set_next1 s).2).1 = false ∧ (set_next1 (set_next1 s).2).2 = (set_next1 s).2)
    ∧ ((set_next2 s).1 = !(has_next2 s) ∧ has_next2 (set_next2 s).2 = true
      ∧ (set_next2 (set_next2 s).2).1 = false ∧ (set_next2 (set_next2 s).2).2 = (set_next2 s).2)
    ∧ ((set_prev1 s).1 = !(has_prev1 s) ∧ has_prev1 (set_prev1 s).2 = true
      ∧ (set_prev1 (set_prev1 s).2).1 = false ∧ (set_prev1 (set_prev1 s).2).2 = (set_prev1 s).2)
    ∧ ((set_prev2 s).1 = !(has_prev2 s) ∧ has_prev2 (set_prev2 s).2 = true
      ∧ (set_prev2 (set_prev2 s).2).1 = false ∧ (set_prev2 (set_prev2 s).2).2 = (set_prev2 s).2)
    ∧ ((set_block_applied s).1 = !(is_applied s) ∧ is_applied (set_block_applied s).2 = true
      ∧ (set_block_applied (set_block_applied s).2).1 = false
      ∧ (set_block_applied (set_block_applied s).2).2 = (set_block_applied s).2)
    ∧ ((set_archived s).1 = !(is_archived s) ∧ is_archived (set_archived s).2 = true
      ∧ (set_archived (set_archived s).2).1 = false
      ∧ (set_archived (set_archived s).2).2 = (set_archived s).2) :=
  ⟨set_flag_spec s FLAG_DATA, set_flag_spec s FLAG_PROOF, set_flag_spec s FLAG_PROOF_LINK,
   set_flag_spec s FLAG_STATE, set_flag_spec s FLAG_STATE_SAVED,
   set_flag_spec s FLAG_PERSISTENT_STATE, set_flag_spec s FLAG_NEXT_1,
   set_flag_spec s FLAG_NEXT_2, set_flag_spec s FLAG_PREV_1, set_flag_spec s FLAG_PREV_2,
   set_flag_spec s FLAG_APPLIED, set_flag_spec s FLAG_MOVED_TO_ARCHIVE⟩

/-- C10: `set_masterchain_ref_seq_no` returns `Ok(true)` on a first set
(stored value zero), `Ok(false)` on an idempotent repeat (stored value
equals the argument), and an error on a differing nonzero stored value; a
nonzero stored value is never overwritten by any call. -/
theorem set_masterchain_ref_seq_no_spec (s : BlockMetaState) (v : Nat) :
    (s.mc_ref_seq_no = 0 →
      set_masterchain_ref_seq_no s v = Except.ok (true, { s with mc_ref_seq_no := v }))
    ∧ (s.mc_ref_seq_no ≠ 0 → s.mc_ref_seq_no = v →
      set_masterchain_ref_seq_no s v = Except.ok (false, s))
    ∧ (s.mc_ref_seq_no ≠ 0 → s.mc_ref_seq_no ≠ v →
      (set_masterchain_ref_seq_no s v).toOption = none)
    ∧ (s.mc_ref_seq_no ≠ 0 → (meta_set_mc_ref_seq_no s v).2 = s) := by
  refine ⟨?_, ?_, ?_, ?_⟩
  · intro h0
    simp [set_masterchain_ref_seq_no, meta_set_mc_ref_seq_no, h0]
  · intro h0 hv
    subst hv
    simp [set_masterchain_ref_seq_no, meta_set_mc_ref_seq_no, h0]
  · intro h0 hv
    simp [set_masterchain_ref_seq_no, meta_set_mc_ref_seq_no, h0, hv, Except.toOption]
  · intro h0
    simp [meta_set_mc_ref_seq_no, h0]

/-- Witness for the masterchain-ref-seqno claim at concrete states: first
set of 7 succeeds with `true`, repeating 7 succeeds with `false`, setting 9
afterwards errors while the stored value stays 7. -/
theorem set_masterchain_ref_seq_no_spec_witness :
    set_masterchain_ref_seq_no { flags := 0, mc_ref_seq_no := 0 } 7 =
      Except.ok (true, { flags := 0, mc_ref_seq_no := 7 })
    ∧ set_masterchain_ref_seq_no { flags := 0, mc_ref_seq_no := 7 } 7 =
      Except.ok (false, { flags := 0, mc_ref_seq_no := 7 })
    ∧ (set_masterchain_ref_seq_no { flags := 0, mc_ref_seq_no := 7 } 9).toOption = none
    ∧ (meta_set_mc_ref_seq_no { flags := 0, mc_ref_seq_no := 7 } 9).2 =
      { flags := 0, mc_ref_seq_no := 7 } :=
  ⟨(set_masterchain_ref_seq_no_spec { flags := 0, mc_ref_seq_no := 0 } 7).1 rfl,
   (set_masterchain_ref_seq_no_spec { flags := 0, mc_ref_seq_no := 7 } 7).2.1
     (by decide) rfl,
   (set_masterchain_ref_seq_no_spec { flags := 0, mc_ref_seq_no := 7 } 9).2.2.1
     (by decide) (by decide),
   (set_masterchain_ref_seq_no_spec { flags := 0, mc_ref_seq_no := 7 } 9).2.2.2
     (by decide)⟩

/-- C8: the transport id is a deterministic function of the full wire
encoding, the uid a deterministic function of the semantic content only,
and two messages with identical semantic content but distinct framing share
a uid while their ids differ. -/
theorem message_id_uid_determinism :
    (∀ m1 m2 : SrcMessage, full_encoding m1 = full_encoding m2 → message_id m1 = message_id m2)
    ∧ (∀ m1 m2 : SrcMessage, semantic_content m1 = semantic_content m2 →
        get_message_uid m1 = get_message_uid m2)
    ∧ (∀ m1 m2 : SrcMessage, m1.dst = m2.dst → m1.body = m2.body → m1.framing ≠ m2.framing →
        get_message_uid m1 = get_message_uid m2 ∧ message_id m1 ≠ message_id m2) := by
  refine ⟨fun m1 m2 h => h, fun m1 m2 h => h, fun m1 m2 hd hb hf => ⟨?_, ?_⟩⟩
  · simp [get_message_uid, semantic_content, hd, hb]
  · intro h
    simp only [message_id, full_encoding, Nat.pair_eq_pair] at h
    exact hf h.2.2

/-- Witness for the identity claim at two concrete messages differing only
in framing. -/
theorem message_id_uid_determinism_witness :
    get_message_uid { dst := 1, body := 2, framing := 3 } =
      get_message_uid { dst := 1, body := 2, framing := 4 }
    ∧ message_id { dst := 1, body := 2, framing := 3 } ≠
      message_id { dst := 1, body := 2, framing := 4 } :=
  message_id_uid_determinism.2.2 { dst := 1, body := 2, framing := 3 }
    { dst := 1, body := 2, framing := 4 } rfl rfl (by decide)

/-- C2: `check_remp_duplicate` answers `Absent` for an unknown (or fully
evicted) id, `Fresh(uid)` for a known id whose uid has no conflicting
canonical record, and `Duplicate(canonical_block, canonical_uid,
canonical_id)` when another id sharing the uid is already decided as
canonical. -/
theorem check_remp_duplicate_cases (c : MessageCache) (i : Nat) :
    (lookup_entry c i = none → check_remp_duplicate c i = RempDuplicateStatus.Absent)
    ∧ (∀ e, lookup_entry c i = some e →
        ((∀ q, q ∈ c → q.1 ≠ i → q.2.uid = e.uid → is_accepted_status q.2.status = false) →
          check_remp_duplicate c i = RempDuplicateStatus.Fresh e.uid)
        ∧ ((∃ q, q ∈ c ∧ q.1 ≠ i ∧ q.2.uid = e.uid ∧ is_accepted_status q.2.status = true) →
          ∃ cid ce, (cid, ce) ∈ c ∧ cid ≠ i ∧ ce.uid = e.uid
            ∧ is_accepted_status ce.status = true
            ∧ check_remp_duplicate c i =
                RempDuplicateStatus.Duplicate (status_block ce.status) e.uid cid)) := by
  constructor
  · intro h
    simp [check_remp_duplicate, h]
  · intro e hlook
    constructor
    · intro hall
      have hfind : find_canonical c i e.uid = none := by
        apply List.find?_eq_none.mpr
        intro q hq
        simp only [Bool.and_eq_true, decide_eq_true_eq, beq_iff_eq, not_and]
        intro h1 h2
        rw [hall q hq h1.1 h1.2] at h2
        exact absurd h2 (by simp)
      simp [check_remp_duplicate, hlook, hfind]
    · intro hex
      have hsome : (find_canonical c i e.uid).isSome := by
        apply List.find?_isSome.mpr
        obtain ⟨q, hq, h1, h2, h3⟩ := hex
        exact ⟨q, hq, by simp [h1, h2, h3]⟩
      obtain ⟨r, hr⟩ := Option.isSome_iff_exists.mp hsome
      have hrmem : r ∈ c := List.mem_of_find?_eq_some hr
      have hrpred := List.find?_some hr
      simp only [Bool.and_eq_true, decide_eq_true_eq, beq_iff_eq] at hrpred
      refine ⟨r.1, r.2, hrmem, hrpred.1.1, hrpred.1.2, hrpred.2, ?_⟩
      simp [check_remp_duplicate, hlook, find_canonical] at *
      simp [check_remp_duplicate, hlook, hr]

/-- Concrete accepted entry for the duplicate-check witness. -/
def dupWitnessAccepted : CacheEntry :=
  { uid := 5, status := RempMessageStatus.Accepted RempMessageLevel.Shardchain 9 0,
    message := none, origin := none, touchedCc := 1 }

/-- Concrete pending entry sharing the accepted uid for the duplicate-check
witness. -/
def dupWitnessPending : CacheEntry :=
  { uid := 5, status := RempMessageStatus.New, message := some 3, origin := some 4,
    touchedCc := 2 }

/-- Concrete pending entry with a unique uid for the duplicate-check
witness. -/
def dupWitnessUnique : CacheEntry :=
  { uid := 6, status := RempMessageStatus.New, message := some 3, origin := some 4,
    touchedCc := 2 }

/-- Concrete cache for the duplicate-check witness. -/
def dupWitnessCache : MessageCache :=
  [(1, dupWitnessAccepted), (2, dupWitnessPending), (3, dupWitnessUnique)]

/-- Witness for the duplicate-check claim: a never-seen id is `Absent`, a
fresh unique-uid id is `Fresh(uid)`, and an id whose uid is decided by
another canonical id is `Duplicate`. -/
theorem check_remp_duplicate_cases_witness :
    check_remp_duplicate dupWitnessCache 4 = RempDuplicateStatus.Absent
    ∧ check_remp_duplicate dupWitnessCache 3 = RempDuplicateStatus.Fresh dupWitnessUnique.uid
    ∧ ∃ cid ce, (cid, ce) ∈ dupWitnessCache ∧ cid ≠ 2 ∧ ce.uid = dupWitnessPending.uid
        ∧ is_accepted_status ce.status = true
        ∧ check_remp_duplicate dupWitnessCache 2 =
            RempDuplicateStatus.Duplicate (status_block ce.status) dupWitnessPending.uid cid := by
  refine ⟨?_, ?_, ?_⟩
  · exact (check_remp_duplicate_cases dupWitnessCache 4).1 (by decide)
  · exact ((check_remp_duplicate_cases dupWitnessCache 3).2 dupWitnessUnique (by decide)).1
      (by decide)
  · exact ((check_remp_duplicate_cases dupWitnessCache 2).2 dupWitnessPending (by decide)).2
      ⟨(1, dupWitnessAccepted), by decide, by decide, by decide, by decide⟩

/-- Bool-level membership for `List.contains` over ids. -/
theorem contains_true_iff (l : List Nat) (a : Nat) : l.contains a = true ↔ a ∈ l := by
  simp

/-- Membership in a uid group unfolds to pending membership plus the cached
uid. -/
theorem mem_group_iff (c : MessageCache) (p : List Nat) (u j : Nat) :
    j ∈ group_of c p u ↔ j ∈ p ∧ uid_of c j = some u := by
  simp [group_of, List.mem_filter]

/-- The id chosen inside a group belongs to the group, and a group with an
accepted member chooses nobody. -/
theorem chosen_of_mem {c : MessageCache} {g : List Nat} {m : Nat}
    (h : chosen_of c g = some m) :
    m ∈ g ∧ g.any (fun i => is_accepted c i) = false := by
  by_cases hacc : g.any (fun i => is_accepted c i) = true
  · simp [chosen_of, hacc] at h
  · rw [chosen_of, if_neg hacc] at h
    exact ⟨List.min?_mem (fun x y => min_choice x y) h, Bool.not_eq_true _ ▸ hacc⟩

/-- A forwarded id is the chosen id of the group of some collation uid. -/
theorem mem_forwards {c : MessageCache} {p : List Nat} {m : Nat}
    (h : m ∈ collation_forwards c p) :
    ∃ u, u ∈ collation_uids c p ∧ chosen_of c (group_of c p u) = some m :=
  List.mem_filterMap.mp h

/-- The chosen id of a uid group carries that uid in the cache. -/
theorem chosen_uid {c : MessageCache} {p : List Nat} {u m : Nat}
    (h : chosen_of c (group_of c p u) = some m) : uid_of c m = some u :=
  ((mem_group_iff c p u m).mp (chosen_of_mem h).1).2

/-- Only pending ids are forwarded by a collation pass. -/
theorem forwards_subset_pending {c : MessageCache} {p : List Nat} {m : Nat}
    (h : m ∈ collation_forwards c p) : m ∈ p := by
  obtain ⟨u, -, hch⟩ := mem_forwards h
  exact ((mem_group_iff c p u m).mp (chosen_of_mem hch).1).1

/-- No two distinct forwarded ids of one pass share a uid. -/
theorem forwards_uid_inj {c : MessageCache} {p : List Nat} {i j : Nat}
    (hi : i ∈ collation_forwards c p) (hj : j ∈ collation_forwards c p)
    (huid : uid_of c i = uid_of c j) : i = j := by
  obtain ⟨u, -, hcu⟩ := mem_forwards hi
  obtain ⟨v, -, hcv⟩ := mem_forwards hj
  have h1 := chosen_uid hcu
  have h2 := chosen_uid hcv
  have huv : u = v := by
    rw [h1, h2] at huid
    exact Option.some.injEq .. ▸ huid
  rw [huv] at hcu
  rw [hcu] at hcv
  exact (Option.some.injEq .. ▸ hcv)

/-- The forwarded list of one pass has no duplicates. -/
theorem forwards_nodup (c : MessageCache) (p : List Nat) :
    (collation_forwards c p).Nodup := by
  apply List.Nodup.filterMap
  · intro u v m hmu hmv
    have h1 := chosen_uid (show chosen_of c (group_of c p u) = some m from hmu)
    have h2 := chosen_uid (show chosen_of c (group_of c p v) = some m from hmv)
    rw [h1] at h2
    exact Option.some.injEq .. ▸ h2
  · exact List.nodup_dedup _

/-- Membership in the reject list of a pass. -/
theorem mem_rejects_iff (c : MessageCache) (p : List Nat) (j : Nat) :
    j ∈ collation_rejects c p ↔
      j ∈ p ∧ is_accepted c j = false ∧ j ∉ collation_forwards c p := by
  simp [collation_rejects, List.mem_filter]

/-- Lookup through `apply_rejects`: listed ids take `Rejected(Queue)`
status, everything else is untouched. -/
theorem apply_rejects_lookup (c : MessageCache) (l : List Nat) (j : Nat) :
    lookup_entry (apply_rejects c l) j =
      (lookup_entry c j).map (fun e =>
        if j ∈ l then
          { uid := e.uid, status := RempMessageStatus.Rejected RempMessageLevel.Queue,
            message := e.message, origin := e.origin, touchedCc := e.touchedCc }
        else e) := by
  induction c with
  | nil => rfl
  | cons q rest ih =>
    obtain ⟨k, e⟩ := q
    have hmap : apply_rejects ((k, e) :: rest) l =
        (if k ∈ l then
          (k, { uid := e.uid, status := RempMessageStatus.Rejected RempMessageLevel.Queue,
                message := e.message, origin := e.origin, touchedCc := e.touchedCc })
         else (k, e)) :: apply_rejects rest l := by
      simp [apply_rejects]
    rw [hmap]
    by_cases hc : k ∈ l
    · rw [if_pos hc]
      by_cases hk : k = j
      · subst hk
        simp [lookup_entry, hc]
      · simp only [lookup_entry, if_neg hk]
        exact ih
    · rw [if_neg hc]
      by_cases hk : k = j
      · subst hk
        simp [lookup_entry, hc]
      · simp only [lookup_entry, if_neg hk]
        exact ih

/-- A cached uid exposes the underlying entry. -/
theorem lookup_of_uid {c : MessageCache} {j w : Nat} (h : uid_of c j = some w) :
    ∃ e, lookup_entry c j = some e ∧ e.uid = w := by
  cases hl : lookup_entry c j with
  | none => rw [uid_of, hl] at h; simp at h
  | some e =>
    rw [uid_of, hl] at h
    simp only [Option.map_some', Option.some.injEq] at h
    exact ⟨e, rfl, h⟩

/-- C1: behaviour of one collation pass on a uid group: with an already
`Accepted` member nothing of the group is forwarded and every undecided
member becomes `Rejected(Queue)` and leaves the pending set; with no
decided member exactly the smallest id is forwarded (still `New` and
pending) and every other member becomes `Rejected(Queue)` and leaves the
pending set; no two forwarded ids of one pass share a uid. -/
theorem collect_messages_for_collation_uid_groups (c : MessageCache) (p : List Nat) (u : Nat) :
    ((∃ a, a ∈ group_of c p u ∧ is_accepted c a = true) →
      (∀ j, j ∈ group_of c p u → j ∉ collation_forwards c p)
      ∧ (∀ j, j ∈ group_of c p u → is_accepted c j = false →
          get_message_status (collect_messages_for_collation c p).1 j =
            some (RempMessageStatus.Rejected RempMessageLevel.Queue)
          ∧ j ∉ (collect_messages_for_collation c p).2.1))
    ∧ ((∀ j, j ∈ group_of c p u → get_message_status c j = some RempMessageStatus.New) →
        ∀ m, (group_of c p u).min? = some m →
          m ∈ collation_forwards c p
          ∧ get_message_status (collect_messages_for_collation c p).1 m =
              some RempMessageStatus.New
          ∧ m ∈ (collect_messages_for_collation c p).2.1
          ∧ (∀ j, j ∈ group_of c p u → j ≠ m →
              get_message_status (collect_messages_for_collation c p).1 j =
                some (RempMessageStatus.Rejected RempMessageLevel.Queue)
              ∧ j ∉ (collect_messages_for_collation c p).2.1))
    ∧ (collation_forwards c p).Nodup
    ∧ (∀ i j, i ∈ collation_forwards c p → j ∈ collation_forwards c p →
        uid_of c i = uid_of c j → i = j) := by
  have hrej : ∀ j, j ∈ p → is_accepted c j = false → j ∉ collation_forwards c p →
      uid_of c j = some u →
      get_message_status (collect_messages_for_collation c p).1 j =
        some (RempMessageStatus.Rejected RempMessageLevel.Queue)
      ∧ j ∉ (collect_messages_for_collation c p).2.1 := by
    intro j hp hacc hnf huid
    have hjr : j ∈ collation_rejects c p := (mem_rejects_iff c p j).mpr ⟨hp, hacc, hnf⟩
    obtain ⟨e, he, -⟩ := lookup_of_uid huid
    constructor
    · show get_message_status (apply_rejects c (collation_rejects c p)) j = _
      rw [get_message_status, apply_rejects_lookup, he]
      simp [hjr]
    · intro hmem
      have hpred := (List.mem_filter.mp hmem).2
      rw [Bool.not_eq_eq_eq_not, Bool.not_true] at hpred
      exact absurd ((contains_true_iff _ _).mpr hjr)
        (by rw [hpred]; exact Bool.false_ne_true)
  refine ⟨?_, ?_, forwards_nodup c p, fun i j => forwards_uid_inj⟩
  · intro hex
    have hnofwd : ∀ j, j ∈ group_of c p u → j ∉ collation_forwards c p := by
      intro j hj hjf
      obtain ⟨v, -, hch⟩ := mem_forwards hjf
      have hju : uid_of c j = some u := ((mem_group_iff c p u j).mp hj).2
      have hjv : uid_of c j = some v := chosen_uid hch
      have huv : v = u := by
        rw [hju] at hjv
        exact (Option.some.injEq .. ▸ hjv).symm
      rw [huv] at hch
      have hnone := (chosen_of_mem hch).2
      obtain ⟨a, ha, haacc⟩ := hex
      have hsome : (group_of c p u).any (fun i => is_accepted c i) = true :=
        List.any_eq_true.mpr ⟨a, ha, haacc⟩
      rw [hsome] at hnone
      exact Bool.true_eq_false ▸ hnone
    refine ⟨hnofwd, fun j hj hacc => ?_⟩
    obtain ⟨hp, huid⟩ := (mem_group_iff c p u j).mp hj
    exact hrej j hp hacc (hnofwd j hj) huid
  · intro hall m hmin
    have hnacc : (group_of c p u).any (fun i => is_accepted c i) = false := by
      apply List.any_eq_false.mpr
      intro x hx
      have hst := hall x hx
      rw [is_accepted, hst]
      simp [is_accepted_status]
    have hch : chosen_of c (group_of c p u) = some m := by
      rw [chosen_of, if_neg (by rw [hnacc]; exact Bool.false_ne_true)]
      exact hmin
    have hmg : m ∈ group_of c p u := (chosen_of_mem hch).1
    obtain ⟨hmp, hmuid⟩ := (mem_group_iff c p u m).mp hmg
    have humem : u ∈ collation_uids c p :=
      List.mem_dedup.mpr (List.mem_filterMap.mpr ⟨m, hmp, hmuid⟩)
    have hmf : m ∈ collation_forwards c p := List.mem_filterMap.mpr ⟨u, humem, hch⟩
    have hmnr : m ∉ collation_rejects c p := by
      intro hr
      exact ((mem_rejects_iff c p m).mp hr).2.2 hmf
    obtain ⟨e, he, -⟩ := lookup_of_uid hmuid
    have hestatus : e.status = RempMessageStatus.New := by
      have := hall m hmg
      rw [get_message_status, he] at this
      simp only [Option.map_some', Option.some.injEq] at this
      exact this
    refine ⟨hmf, ?_, ?_, ?_⟩
    · show get_message_status (apply_rejects c (collation_rejects c p)) m = _
      rw [get_message_status, apply_rejects_lookup, he]
      simp [hmnr, hestatus]
    · show m ∈ p.filter _
      apply List.mem_filter.mpr
      refine ⟨hmp, ?_⟩
      rw [Bool.not_eq_eq_eq_not, Bool.not_true]
      rw [show ((collation_rejects c p).contains m) = false from ?_]
      by_contra hcon
      exact hmnr ((contains_true_iff _ _).mp (Bool.not_eq_false _ ▸ hcon))
    · intro j hj hjm
      obtain ⟨hp, huid⟩ := (mem_group_iff c p u j).mp hj
      have hjacc : is_accepted c j = false := by
        have hst := hall j hj
        rw [is_accepted, hst]
        simp [is_accepted_status]
      have hjnf : j ∉ collation_forwards c p := by
        intro hjf
        obtain ⟨v, -, hchv⟩ := mem_forwards hjf
        have hjv : uid_of c j = some v := chosen_uid hchv
        have huv : v = u := by
          rw [huid] at hjv
          exact (Option.some.injEq .. ▸ hjv).symm
        rw [huv] at hchv
        rw [hch] at hchv
        exact hjm (Option.some.injEq .. ▸ hchv).symm
      exact hrej j hp hjacc hjnf huid

/-- Concrete entry with uid 10 for the collation witness. -/
def colWitnessE1 : CacheEntry :=
  { uid := 10, status := RempMessageStatus.New, message := some 21, origin := some 31,
    touchedCc := 1 }

/-- Second concrete entry with uid 10 for the collation witness. -/
def colWitnessE2 : CacheEntry :=
  { uid := 10, status := RempMessageStatus.New, message := some 22, origin := some 32,
    touchedCc := 1 }

/-- Concrete pending entry with uid 20 for the collation witness. -/
def colWitnessE3 : CacheEntry :=
  { uid := 20, status := RempMessageStatus.New, message := some 23, origin := some 33,
    touchedCc := 1 }

/-- Concrete accepted entry with uid 20 for the collation witness. -/
def colWitnessE4 : CacheEntry :=
  { uid := 20, status := RempMessageStatus.Accepted RempMessageLevel.Masterchain 9 0,
    message := none, origin := none, touchedCc := 2 }

/-- Concrete cache for the collation witness. -/
def colWitnessCache : MessageCache :=
  [(1, colWitnessE1), (2, colWitnessE2), (3, colWitnessE3), (4, colWitnessE4)]

/-- Concrete pending set for the collation witness. -/
def colWitnessPending : List Nat := [1, 2, 3, 4]

/-- Witness for the collation claim: in the undecided uid-10 group the
smallest id 1 is forwarded and stays pending while 2 is rejected; in the
uid-20 group with accepted member 4 nothing is forwarded and 3 is
rejected. -/
theorem collect_messages_for_collation_uid_groups_witness :
    (1 : Nat) ∈ collation_forwards colWitnessCache colWitnessPending
    ∧ get_message_status (collect_messages_for_collation colWitnessCache colWitnessPending).1 1 =
        some RempMessageStatus.New
    ∧ 1 ∈ (collect_messages_for_collation colWitnessCache colWitnessPending).2.1
    ∧ get_message_status (collect_messages_for_collation colWitnessCache colWitnessPending).1 2 =
        some (RempMessageStatus.Rejected RempMessageLevel.Queue)
    ∧ 2 ∉ (collect_messages_for_collation colWitnessCache colWitnessPending).2.1
    ∧ 3 ∉ collation_forwards colWitnessCache colWitnessPending
    ∧ get_message_status (collect_messages_for_collation colWitnessCache colWitnessPending).1 3 =
        some (RempMessageStatus.Rejected RempMessageLevel.Queue)
    ∧ 3 ∉ (collect_messages_for_collation colWitnessCache colWitnessPending).2.1 := by
  have hB := (collect_messages_for_collation_uid_groups colWitnessCache colWitnessPending 20).1
    ⟨4, by decide, by decide⟩
  have hA := (collect_messages_for_collation_uid_groups colWitnessCache colWitnessPending 10).2.1
    (by decide) 1 (by decide)
  obtain ⟨hAf, hAst, hAp, hArej⟩ := hA
  obtain ⟨hBnf, hBrej⟩ := hB
  have h2 := hArej 2 (by decide) (by decide)
  have h3 := hBrej 3 (by decide) (by decide)
  exact ⟨hAf, hAst, hAp, h2.1, h2.2, hBnf 3 (by decide), h3.1, h3.2⟩

/-- Entry recorded for a replayed record with an unknown id. -/
def forwarded_entry (r : RempCatchainRecord) (cc : Nat) : CacheEntry :=
  { uid := r.message_uid, status := forwarded_ignored_status,
    message := some r.message_body, origin := some r.origin, touchedCc := cc }

/-- C7: `forwarded_ignored_status` is exactly `Ignored` at `Masterchain`
level, and a record replayed from an older session whose uid is already
decided elsewhere receives it from
`process_pending_remp_catchain_record` and is forwarded nowhere (it never
enters the pending set and cannot be selected by a collation pass). -/
theorem forwarded_ignored_status_spec
    (cc : Nat) (c : MessageCache) (p : List Nat) (r : RempCatchainRecord)
    (hnew : lookup_entry c r.message_id = none)
    (hold : r.masterchain_seqno < cc)
    (hdecided : ∃ q, q ∈ c ∧ q.2.uid = r.message_uid ∧ is_accepted_status q.2.status = true)
    (hnp : r.message_id ∉ p) :
    forwarded_ignored_status = RempMessageStatus.Ignored RempMessageLevel.Masterchain 0
    ∧ get_message_status (process_pending_remp_catchain_record cc c p r).1 r.message_id =
        some forwarded_ignored_status
    ∧ (process_pending_remp_catchain_record cc c p r).2 = p
    ∧ r.message_id ∉ collation_forwards (process_pending_remp_catchain_record cc c p r).1
        (process_pending_remp_catchain_record cc c p r).2 := by
  have hproc : process_pending_remp_catchain_record cc c p r =
      ((r.message_id, forwarded_entry r cc) :: c, p) := by
    simp [process_pending_remp_catchain_record, forwarded_entry, hnew, hold]
  refine ⟨rfl, ?_, ?_, ?_⟩
  · rw [hproc]
    simp [get_message_status, lookup_entry, forwarded_entry]
  · rw [hproc]
  · rw [hproc]
    intro hf
    exact hnp (forwards_subset_pending hf)

/-- Concrete cache holding an accepted canonical entry for the
forwarded-ignored witness. -/
def fwdWitnessCache : MessageCache :=
  [(5, { uid := 7, status := RempMessageStatus.Accepted RempMessageLevel.Shardchain 3 0,
         message := none, origin := none, touchedCc := 1 })]

/-- Concrete replayed record for the forwarded-ignored witness. -/
def fwdWitnessRecord : RempCatchainRecord :=
  { message_id := 6, message_uid := 7, message_body := 1, origin := 2,
    masterchain_seqno := 1 }

/-- Witness for the forwarded-ignored claim at a concrete replayed record
whose uid is already decided by another id. -/
theorem forwarded_ignored_status_spec_witness :
    forwarded_ignored_status = RempMessageStatus.Ignored RempMessageLevel.Masterchain 0
    ∧ get_message_status
        (process_pending_remp_catchain_record 2 fwdWitnessCache [] fwdWitnessRecord).1 6 =
        some forwarded_ignored_status
    ∧ (process_pending_remp_catchain_record 2 fwdWitnessCache [] fwdWitnessRecord).2 = []
    ∧ (6 : Nat) ∉ collation_forwards
        (process_pending_remp_catchain_record 2 fwdWitnessCache [] fwdWitnessRecord).1
        (process_pending_remp_catchain_record 2 fwdWitnessCache [] fwdWitnessRecord).2 :=
  forwarded_ignored_status_spec 2 fwdWitnessCache [] fwdWitnessRecord (by decide) (by decide)
    ⟨(5, { uid := 7, status := RempMessageStatus.Accepted RempMessageLevel.Shardchain 3 0,
           message := none, origin := none, touchedCc := 1 }), by decide, by decide, by decide⟩
    (by decide)

/-- C6: a `Duplicate` answer returns to `Fresh` once the canonical record
is fully evicted: with a canonical accepted entry decided for the uid of a
surviving id, the duplicate check answers `Duplicate` before GC, and after
the alive range has advanced beyond the canonical entry twice (two GC
passes with increasing starts) it answers `Fresh` again. -/
theorem duplicate_fresh_after_eviction
    (c : MessageCache) (hk : (c.map Prod.fst).Nodup)
    (i cid : Nat) (e ce : CacheEntry)
    (hi : lookup_entry c i = some e)
    (hcid : lookup_entry c cid = some ce)
    (hne : cid ≠ i)
    (huid : ce.uid = e.uid)
    (hacc : is_accepted_status ce.status = true)
    (honly : ∀ q, q ∈ c → q.2.uid = e.uid → is_accepted_status q.2.status = true → q.1 = cid)
    (s1 s2 : Nat) (h1 : ce.touchedCc < s1) (h2 : s1 < s2) (hsurv : s2 ≤ e.touchedCc) :
    check_remp_duplicate c i =
      RempDuplicateStatus.Duplicate (status_block ce.status) e.uid cid
    ∧ check_remp_duplicate (gc_old_messages (gc_old_messages c s1).1 s2).1 i =
      RempDuplicateStatus.Fresh e.uid := by
  constructor
  · have hsome : (find_canonical c i e.uid).isSome := by
      apply List.find?_isSome.mpr
      exact ⟨(cid, ce), lookup_entry_mem hcid, by simp [hne, huid, hacc]⟩
    obtain ⟨r, hr⟩ := Option.isSome_iff_exists.mp hsome
    have hrmem : r ∈ c := List.mem_of_find?_eq_some hr
    have hrpred := List.find?_some hr
    simp only [Bool.and_eq_true, decide_eq_true_eq, beq_iff_eq] at hrpred
    have hr1 : r.1 = cid := honly r hrmem hrpred.1.2 hrpred.2
    have hr2 : r.2 = ce := by
      have := mem_lookup_entry hk (show (r.1, r.2) ∈ c from hrmem)
      rw [hr1, hcid] at this
      exact (Option.some.inj this).symm
    simp only [check_remp_duplicate, hi, hr]
    rw [hr1, hr2]
  · have hk1 : ((gc_old_messages c s1).1.map Prod.fst).Nodup :=
      hk.sublist (gc_keys_sublist c s1)
    have hlook1 : lookup_entry (gc_old_messages c s1).1 i = some e := by
      rw [gc_lookup hk s1 i, hi]
      have : ¬ e.touchedCc < s1 := by omega
      simp [this]
    have hlook2 : lookup_entry (gc_old_messages (gc_old_messages c s1).1 s2).1 i = some e := by
      rw [gc_lookup hk1 s2 i, hlook1]
      have : ¬ e.touchedCc < s2 := by omega
      simp [this]
    have hfind : find_canonical (gc_old_messages (gc_old_messages c s1).1 s2).1 i e.uid
        = none := by
      apply List.find?_eq_none.mpr
      intro q hq
      simp only [Bool.and_eq_true, decide_eq_true_eq, beq_iff_eq, not_and]
      intro hq1 hq3
      have hq2 : q.2.uid = e.uid := hq1.2
      obtain ⟨f1, hf1mem, hf1case⟩ := gc_mem_src hq
      have hf1uid : f1.uid = e.uid := by
        rcases hf1case with ⟨hqe, -⟩ | ⟨hqe, -, -⟩
        · rw [← hqe]; exact hq2
        · have : q.2.uid = f1.uid := by rw [hqe]; rfl
          rw [← this]; exact hq2
      have hf1acc : is_accepted_status f1.status = true := by
        rcases hf1case with ⟨hqe, -⟩ | ⟨hqe, -, -⟩
        · rw [← hqe]; exact hq3
        · have : q.2.status = f1.status := by rw [hqe]; rfl
          rw [← this]; exact hq3
      obtain ⟨f0, hf0mem0, hf0case0⟩ := gc_mem_src hf1mem
      have hf0mem : (q.1, f0) ∈ c := hf0mem0
      have hf0case : (f1 = f0 ∧ s1 ≤ f0.touchedCc) ∨
          (f1 = demote f0 s1 ∧ f0.touchedCc < s1 ∧ f0.message.isSome = true) := hf0case0
      have hf0uid : f0.uid = e.uid := by
        rcases hf0case with ⟨hfe, -⟩ | ⟨hfe, -, -⟩
        · rw [← hfe]; exact hf1uid
        · have h : f1.uid = f0.uid := by rw [hfe]; rfl
          rw [← h]; exact hf1uid
      have hf0acc : is_accepted_status f0.status = true := by
        rcases hf0case with ⟨hfe, -⟩ | ⟨hfe, -, -⟩
        · rw [← hfe]; exact hf1acc
        · have h : f1.status = f0.status := by rw [hfe]; rfl
          rw [← h]; exact hf1acc
      have hqcid : q.1 = cid := honly (q.1, f0) hf0mem hf0uid hf0acc
      have hf0ce : f0 = ce := by
        have := mem_lookup_entry hk hf0mem
        rw [hqcid, hcid] at this
        exact (Option.some.inj this).symm
      rcases hf0case with ⟨hfe, hge⟩ | ⟨hfe, -, -⟩
      · rw [hf0ce] at hge
        omega
      · have hf1dem : f1 = demote ce s1 := by rw [hfe, hf0ce]
        rcases hf1case with ⟨-, hge1⟩ | ⟨-, -, hbody⟩
        · rw [hf1dem] at hge1
          simp [demote] at hge1
          omega
        · rw [hf1dem] at hbody
          simp [demote] at hbody
    simp only [check_remp_duplicate, hlook2, hfind]

/-- Concrete canonical accepted entry for the duplicate-to-fresh witness. -/
def dfWitnessCanonical : CacheEntry :=
  { uid := 9, status := RempMessageStatus.Accepted RempMessageLevel.Shardchain 3 0,
    message := none, origin := none, touchedCc := 1 }

/-- Concrete surviving entry for the duplicate-to-fresh witness. -/
def dfWitnessSurvivor : CacheEntry :=
  { uid := 9, status := RempMessageStatus.New, message := some 1, origin := some 2,
    touchedCc := 10 }

/-- Concrete cache for the duplicate-to-fresh witness. -/
def dfWitnessCache : MessageCache := [(5, dfWitnessCanonical), (8, dfWitnessSurvivor)]

/-- Witness for the duplicate-to-fresh claim: before GC the check answers
`Duplicate`, after two advancing GC passes it answers `Fresh`. -/
theorem duplicate_fresh_after_eviction_witness :
    check_remp_duplicate dfWitnessCache 8 = RempDuplicateStatus.Duplicate 3 9 5
    ∧ check_remp_duplicate
        (gc_old_messages (gc_old_messages dfWitnessCache 2).1 3).1 8 =
        RempDuplicateStatus.Fresh 9 :=
  duplicate_fresh_after_eviction dfWitnessCache (by decide) 8 5
    dfWitnessSurvivor dfWitnessCanonical (by decide) (by decide) (by decide) (by decide)
    (by decide) (by decide) 2 3 (by decide) (by decide) (by decide)
